import Mathlib

/-!
# Verification of the AirBnbAnalyzer metrics engine

Shallow embedding of the metrics-derivation layer of the AirBnbAnalyzer
repository (`src/analytics/analysis.py`, `src/utils/data_loader.py`,
`src/airbnb_host_advisor.py`) together with proofs and refutations of the
specification claims about it.

Conventions of the embedding:
* pandas Series of availability tokens become `List String`;
* floats become `ℚ`; a possibly-NaN float becomes `Option ℚ` (with `none`
  playing the role of NaN) or the `PyVal.nan` constructor;
* a DataFrame becomes either an association list of named columns (`Frame`)
  or a row-oriented table, whichever the analysed function iterates over;
* fallible Python code (code that can raise) returns `Except String _`.
-/

namespace AirBnb

/-! ## Occupancy core (analysis.py, `analyze_city_market` lines 136-142 and
`analyze_copenhagen_occupancy` lines 182-188)

Both functions compute, over the `available` column of the calendar table:
`total_days = len(calendar_df)`, `booked_days = (available == 'f').sum()`,
`available_days = (available == 't').sum()`,
`occupancy_rate = booked/total*100 if total > 0 else 0`,
`availability_rate = available/total*100 if total > 0 else 0`. -/

/-- `total_days = len(calendar_df)`. -/
def totalDays (avail : List String) : ℕ := avail.length

/-- `booked_days = (calendar_df['available'] == 'f').sum()`. -/
def bookedDays (avail : List String) : ℕ := (avail.filter (fun a => a == "f")).length

/-- `available_days = (calendar_df['available'] == 't').sum()`. -/
def availableDays (avail : List String) : ℕ := (avail.filter (fun a => a == "t")).length

/-- `occupancy_rate = (booked_days / total_days) * 100 if total_days > 0 else 0`. -/
def occupancyRate (avail : List String) : ℚ :=
  if 0 < totalDays avail then (bookedDays avail : ℚ) / (totalDays avail : ℚ) * 100 else 0

/-- `availability_rate = (available_days / total_days) * 100 if total_days > 0 else 0`. -/
def availabilityRate (avail : List String) : ℚ :=
  if 0 < totalDays avail then (availableDays avail : ℚ) / (totalDays avail : ℚ) * 100 else 0

theorem bookedDays_le_totalDays (avail : List String) : bookedDays avail ≤ totalDays avail :=
  List.length_filter_le _ _

theorem availableDays_le_totalDays (avail : List String) :
    availableDays avail ≤ totalDays avail :=
  List.length_filter_le _ _

theorem occupancyRate_nonneg (avail : List String) : 0 ≤ occupancyRate avail := by
  unfold occupancyRate
  split
  · positivity
  · norm_num

theorem occupancyRate_le_100 (avail : List String) : occupancyRate avail ≤ 100 := by
  unfold occupancyRate
  split
  · rename_i h
    have hb : (bookedDays avail : ℚ) ≤ (totalDays avail : ℚ) := by
      exact_mod_cast bookedDays_le_totalDays avail
    have ht : (0 : ℚ) < (totalDays avail : ℚ) := by exact_mod_cast h
    have : (bookedDays avail : ℚ) / (totalDays avail : ℚ) ≤ 1 :=
      (div_le_one ht).mpr hb
    calc (bookedDays avail : ℚ) / (totalDays avail : ℚ) * 100
        ≤ 1 * 100 := by nlinarith
      _ = 100 := by norm_num
  · norm_num

/-- A concrete 10-row calendar with 6 rows available and 4 booked. -/
def tenRowCalendar : List String :=
  ["t", "t", "t", "t", "t", "t", "f", "f", "f", "f"]

/-- **C1.** The occupancy analysis returns
`occupancy_rate = booked_days / total_days × 100` when `total_days > 0` and `0`
when `total_days = 0`, so the rate always lies in `[0, 100]`; the concrete
10-row calendar with 6 available and 4 booked rows yields `total_days = 10`,
`booked_days = 4`, `available_days = 6`, `occupancy_rate = 40`. -/
theorem occupancy_rate_spec (avail : List String) :
    (0 < totalDays avail →
      occupancyRate avail = (bookedDays avail : ℚ) / (totalDays avail : ℚ) * 100) ∧
    (totalDays avail = 0 → occupancyRate avail = 0) ∧
    0 ≤ occupancyRate avail ∧ occupancyRate avail ≤ 100 ∧
    (totalDays tenRowCalendar = 10 ∧ bookedDays tenRowCalendar = 4 ∧
      availableDays tenRowCalendar = 6 ∧ occupancyRate tenRowCalendar = 40) := by
  refine ⟨?_, ?_, occupancyRate_nonneg avail, occupancyRate_le_100 avail, ?_⟩
  · intro h
    unfold occupancyRate
    simp [h]
  · intro h
    unfold occupancyRate
    simp [h]
  · refine ⟨by decide, by decide, by decide, ?_⟩
    have hb : bookedDays tenRowCalendar = 4 := by decide
    have ht : totalDays tenRowCalendar = 10 := by decide
    rw [occupancyRate, hb, ht]
    norm_num

/-- Witness for `occupancy_rate_spec`, instantiated at the 10-row calendar:
the inner implications are discharged on a concrete input. -/
theorem occupancy_rate_spec_witness :
    occupancyRate tenRowCalendar =
      (bookedDays tenRowCalendar : ℚ) / (totalDays tenRowCalendar : ℚ) * 100 ∧
    occupancyRate [] = 0 :=
  ⟨(occupancy_rate_spec tenRowCalendar).1 (by decide),
   (occupancy_rate_spec []).2.1 (by decide)⟩

/-! ## C10: booked + available vs total -/

theorem booked_add_available (avail : List String) :
    bookedDays avail + availableDays avail ≤ totalDays avail ∧
    (bookedDays avail + availableDays avail = totalDays avail ↔
      ∀ a ∈ avail, a = "t" ∨ a = "f") := by
  induction avail with
  | nil => simp [bookedDays, availableDays, totalDays]
  | cons a t ih =>
    have hT : totalDays (a :: t) = totalDays t + 1 := by simp [totalDays]
    by_cases hf : a = "f"
    · have hb : bookedDays (a :: t) = bookedDays t + 1 := by
        simp [bookedDays, List.filter_cons, hf]
      have ha : availableDays (a :: t) = availableDays t := by
        simp [availableDays, List.filter_cons, hf]
      rw [hb, ha, hT]
      refine ⟨by omega, ?_, ?_⟩
      · intro h a' ha'
        rcases List.mem_cons.mp ha' with h1 | h2
        · right; rw [h1, hf]
        · exact (ih.2.mp (by omega)) a' h2
      · intro h
        have := ih.2.mpr (fun a' ha' => h a' (List.mem_cons_of_mem _ ha'))
        omega
    · by_cases ht : a = "t"
      · have hb : bookedDays (a :: t) = bookedDays t := by
          simp [bookedDays, List.filter_cons, ht]
        have ha : availableDays (a :: t) = availableDays t + 1 := by
          simp [availableDays, List.filter_cons, ht]
        rw [hb, ha, hT]
        refine ⟨by omega, ?_, ?_⟩
        · intro h a' ha'
          rcases List.mem_cons.mp ha' with h1 | h2
          · left; rw [h1, ht]
          · exact (ih.2.mp (by omega)) a' h2
        · intro h
          have := ih.2.mpr (fun a' ha' => h a' (List.mem_cons_of_mem _ ha'))
          omega
      · have hb : bookedDays (a :: t) = bookedDays t := by
          simp [bookedDays, List.filter_cons, hf]
        have ha : availableDays (a :: t) = availableDays t := by
          simp [availableDays, List.filter_cons, ht]
        rw [hb, ha, hT]
        refine ⟨?_, ?_, ?_⟩
        · have := ih.1
          omega
        · intro h
          exfalso
          have := ih.1
          omega
        · intro h
          exact absurd (h a (List.mem_cons_self a t)) (by simp [hf, ht])

/-- **C10.** `booked_days + available_days ≤ total_days`, with equality exactly
when every value of the `available` column is `'t'` or `'f'`; rows carrying any
other token are counted in `total_days` but in neither of the other two counts,
and on such an input `occupancy_rate + availability_rate < 100`. -/
theorem booked_available_partition (avail : List String) :
    bookedDays avail + availableDays avail ≤ totalDays avail ∧
    (bookedDays avail + availableDays avail = totalDays avail ↔
      ∀ a ∈ avail, a = "t" ∨ a = "f") ∧
    bookedDays ["x"] = 0 ∧ availableDays ["x"] = 0 ∧ totalDays ["x"] = 1 ∧
    occupancyRate ["x"] + availabilityRate ["x"] < 100 := by
  refine ⟨(booked_add_available avail).1, (booked_add_available avail).2, by decide, by decide,
    by decide, ?_⟩
  have hb : bookedDays ["x"] = 0 := by decide
  have ha : availableDays ["x"] = 0 := by decide
  have ht : totalDays ["x"] = 1 := by decide
  rw [occupancyRate, availabilityRate, hb, ha, ht]
  norm_num

/-- Witness for `booked_available_partition`: the equality direction of the
inner iff discharged on a concrete mixed calendar. -/
theorem booked_available_partition_witness :
    bookedDays ["t", "f", "x"] + availableDays ["t", "f", "x"] ≠
      totalDays ["t", "f", "x"] := by
  intro h
  have := ((booked_available_partition ["t", "f", "x"]).2.1.mp h) "x" (by decide)
  simp at this

/-! ## Price/currency normalization (data_loader.py, `clean_price_data`)

A Python cell value is embedded as `PyVal`: a non-NaN number (`int`/`float`),
the float NaN, Python `None`, a string, or a value of any other type. -/

inductive PyVal where
  | num (q : ℚ)
  | nan
  | pyNone
  | str (s : String)
  | other
deriving DecidableEq

/-- `price.replace('$', '').replace(',', '')`: every `'$'` and `','`
character is removed. -/
def stripCurrency (s : String) : String :=
  String.mk (s.toList.filter (fun c => decide (c ≠ '$') && decide (c ≠ ',')))

/-- Numeric value of a digit string, most significant digit first. -/
def digitsVal (cs : List Char) : ℕ :=
  cs.foldl (fun n c => 10 * n + (c.toNat - 48)) 0

/-- Scaled-integer reading of a decimal literal: the result `(m, e)` denotes
the rational `m / 10 ^ e`. An optional sign, then digits with at most one
decimal point and at least one digit overall. -/
def pyFloatRaw? (cs : List Char) : Option (ℤ × ℕ) :=
  let sign : ℤ × List Char :=
    match cs with
    | '-' :: rest => (-1, rest)
    | '+' :: rest => (1, rest)
    | _ => (1, cs)
  let intPart := sign.2.takeWhile Char.isDigit
  let rest := sign.2.dropWhile Char.isDigit
  match rest with
  | [] =>
    if intPart.isEmpty then none else some (sign.1 * (digitsVal intPart : ℤ), 0)
  | '.' :: frac =>
    if frac.all Char.isDigit && !(intPart.isEmpty && frac.isEmpty) then
      some (sign.1 * ((digitsVal intPart : ℤ) * (10 : ℤ) ^ frac.length +
        (digitsVal frac : ℤ)), frac.length)
    else none
  | _ => none

/-- Rational denoted by a scaled integer. -/
def ratOfScaled (p : ℤ × ℕ) : ℚ := (p.1 : ℚ) / (10 : ℚ) ^ p.2

/-- Model of Python `float(s)` restricted to plain decimal literals.
Exponent forms, `inf`/`nan` words and surrounding whitespace are treated as
unparsable; this only narrows the set of accepted strings and is irrelevant
to currency-style inputs. `none` models `ValueError`. -/
def pyFloat? (s : String) : Option ℚ :=
  (pyFloatRaw? s.toList).map ratOfScaled

/-- `clean_price` from `clean_price_data` (data_loader.py lines 118-129):
`pd.isna` values (NaN and `None`) map to NaN, `int`/`float` values pass
through `float(...)`, strings are parsed after stripping `'$'`/`','` with any
exception caught to NaN, and every other type maps to NaN. `none` models NaN. -/
def clean_price (v : PyVal) : Option ℚ :=
  match v with
  | .nan => none
  | .pyNone => none
  | .num q => some q
  | .str s => pyFloat? (stripCurrency s)
  | .other => none

/-- Re-encode the result of `clean_price` as a cell of the output column. -/
def cleanCell (v : PyVal) : PyVal :=
  match clean_price v with
  | some q => .num q
  | none => .nan

/-- A DataFrame as an association list of named columns. Column order is
irrelevant to lookup, so assignment is modelled by binding the name at the
front and dropping any previous binding. -/
structure Frame where
  cols : List (String × List PyVal)
deriving DecidableEq

def getCol? (f : Frame) (name : String) : Option (List PyVal) :=
  (f.cols.find? (fun p => p.1 == name)).map (fun p => p.2)

def hasCol (f : Frame) (name : String) : Bool :=
  (getCol? f name).isSome

/-- `df[name] = vs` on a frame. -/
def setCol (f : Frame) (name : String) (vs : List PyVal) : Frame :=
  ⟨(name, vs) :: f.cols.filter (fun p => !(p.1 == name))⟩

/-- `clean_price_data(df, price_col)` (data_loader.py lines 112-132): return
`df` unchanged when the column is absent, otherwise store the row-wise
`clean_price` image under `f'{price_col}_clean'`. -/
def clean_price_data (df : Frame) (price_col : String) : Frame :=
  match getCol? df price_col with
  | none => df
  | some vs => setCol df (price_col ++ "_clean") (vs.map cleanCell)

theorem getCol?_setCol (f : Frame) (name : String) (vs : List PyVal) :
    getCol? (setCol f name vs) name = some vs := by
  simp [getCol?, setCol, List.find?]

/-- **C2.** The price normalizer returns `float(x)` for numeric `x`, the float
of the `'$'`/`','`-stripped string for parsable currency strings, and NaN for
NaN, `None`, the empty string, unparsable strings and other types — it is a
total function (never raises) — and `clean_price_data` places the cleaned
values in the column named `<original>_clean`. -/
theorem clean_price_spec (q : ℚ) (s : String) (df : Frame) (c : String)
    (vs : List PyVal) (hc : getCol? df c = some vs) :
    clean_price (.num q) = some q ∧
    clean_price .nan = none ∧
    clean_price .pyNone = none ∧
    clean_price .other = none ∧
    clean_price (.str "") = none ∧
    (∀ r, pyFloat? (stripCurrency s) = some r → clean_price (.str s) = some r) ∧
    (pyFloat? (stripCurrency s) = none → clean_price (.str s) = none) ∧
    clean_price (.str "$1,234.50") = some (2469 / 2) ∧
    getCol? (clean_price_data df c) (c ++ "_clean") = some (vs.map cleanCell) := by
  refine ⟨rfl, rfl, rfl, rfl, by decide, ?_, ?_, ?_, ?_⟩
  · intro r hr
    simpa [clean_price] using hr
  · intro hr
    simpa [clean_price] using hr
  · show pyFloat? (stripCurrency "$1,234.50") = some (2469 / 2)
    have h1 : pyFloatRaw? (stripCurrency "$1,234.50").toList = some (123450, 2) := by
      decide
    rw [pyFloat?, h1]
    show some (ratOfScaled (123450, 2)) = some (2469 / 2)
    rw [ratOfScaled]
    norm_num
  · rw [clean_price_data, hc, getCol?_setCol]

/-- Witness for `clean_price_spec` at a concrete one-column frame. -/
theorem clean_price_spec_witness :
    getCol? (clean_price_data ⟨[("price", [PyVal.str "$12"])]⟩ "price") "price_clean" =
      some [PyVal.num 12] := by
  have h := (clean_price_spec 0 "" ⟨[("price", [PyVal.str "$12"])]⟩ "price"
    [PyVal.str "$12"] (by decide)).2.2.2.2.2.2.2.2
  have hraw : pyFloatRaw? (stripCurrency "$12").toList = some (12, 0) := by decide
  have h2 : clean_price (PyVal.str "$12") = some (ratOfScaled (12, 0)) := by
    show (pyFloatRaw? (stripCurrency "$12").toList).map ratOfScaled =
      some (ratOfScaled (12, 0))
    rw [hraw]
    rfl
  have hcell : cleanCell (PyVal.str "$12") = PyVal.num 12 := by
    simp only [cleanCell, h2]
    simp only [PyVal.num.injEq, ratOfScaled]
    norm_num
  rw [List.map_cons, List.map_nil, hcell] at h
  exact h

/-! ## Day-of-week aggregates (analysis.py)

`analyze_copenhagen_occupancy` (lines 190-194) groups the booked subset by
day-of-week, reindexes onto the fixed Monday..Sunday order, and fills the
missing entries with 0.  `analyze_review_patterns` (lines 378-385) reindexes
the review counts onto the same order but performs no `fillna`, so a day
absent from the data keeps the NaN produced by `reindex`.  A pandas
`value_counts`/`groupby(...).size()` table only carries the keys that occur,
i.e. the keys with a strictly positive count. -/

def weekOrder : List String :=
  ["Monday", "Tuesday", "Wednesday", "Thursday", "Friday", "Saturday", "Sunday"]

/-- Number of occurrences of day `d` in the raw data. -/
def countDay (days : List String) (d : String) : ℕ :=
  (days.filter (fun x => x == d)).length

/-- `value_counts().reindex(weekOrder)` with no `fillna`: days that do not
occur get NaN (`none`). -/
def dowReindex (days : List String) : List (String × Option ℕ) :=
  weekOrder.map (fun d => (d, if countDay days d = 0 then none else some (countDay days d)))

/-- `groupby('day_of_week').size().reindex(weekOrder).fillna(0)`. -/
def dowReindexFill (days : List String) : List (String × ℕ) :=
  weekOrder.map (fun d => (d, countDay days d))

/-- One calendar row as consumed by the day-of-week occupancy aggregate. -/
structure DowCalRow where
  day_of_week : String
  available : String
deriving DecidableEq

/-- `dow_occupancy` of `analyze_copenhagen_occupancy`: booked subset
(`available == 'f'`), grouped by day of week, reindexed, 0-filled. -/
def dow_occupancy (rows : List DowCalRow) : List (String × ℕ) :=
  dowReindexFill ((rows.filter (fun r => r.available == "f")).map (fun r => r.day_of_week))

/-- `reviews_by_day` of `analyze_review_patterns`: review day-of-week counts,
reindexed with no fill. -/
def reviews_by_day (days : List String) : List (String × Option ℕ) :=
  dowReindex days

/-- **C3 counterexample.** The review-pattern day-of-week aggregate does not
substitute 0 for absent days: with a single Monday review, Tuesday appears
with a missing value (NaN), not with count 0. -/
theorem reviews_by_day_missing_is_nan :
    ("Tuesday", (none : Option ℕ)) ∈ reviews_by_day ["Monday"] ∧
    ¬ ("Tuesday", (some 0 : Option ℕ)) ∈ reviews_by_day ["Monday"] := by
  decide

/-- **C3 (amended).** Every day-of-week aggregate contains exactly 7 entries
in the fixed order Monday..Sunday; in the occupancy analysis absent days carry
count 0, while in the review-pattern analysis absent days carry a missing
value (NaN) rather than 0. -/
theorem dow_aggregate_shape (rows : List DowCalRow) (days : List String) :
    (dow_occupancy rows).map Prod.fst = weekOrder ∧
    (dow_occupancy rows).length = 7 ∧
    (∀ d ∈ weekOrder,
      countDay ((rows.filter (fun r => r.available == "f")).map
        (fun r => r.day_of_week)) d = 0 → (d, 0) ∈ dow_occupancy rows) ∧
    (reviews_by_day days).map Prod.fst = weekOrder ∧
    (reviews_by_day days).length = 7 ∧
    (∀ d ∈ weekOrder, countDay days d = 0 → (d, (none : Option ℕ)) ∈ reviews_by_day days) ∧
    (∀ d ∈ weekOrder, 0 < countDay days d →
      (d, some (countDay days d)) ∈ reviews_by_day days) := by
  refine ⟨?_, ?_, ?_, ?_, ?_, ?_, ?_⟩
  · unfold dow_occupancy dowReindexFill
    rw [List.map_map]
    exact List.map_id _
  · simp [dow_occupancy, dowReindexFill, weekOrder]
  · intro d hd h0
    simp only [dow_occupancy, dowReindexFill, List.mem_map]
    exact ⟨d, hd, by rw [h0]⟩
  · unfold reviews_by_day dowReindex
    rw [List.map_map]
    exact List.map_id _
  · simp [reviews_by_day, dowReindex, weekOrder]
  · intro d hd h0
    simp only [reviews_by_day, dowReindex, List.mem_map]
    exact ⟨d, hd, by rw [if_pos h0]⟩
  · intro d hd h0
    simp only [reviews_by_day, dowReindex, List.mem_map]
    exact ⟨d, hd, by rw [if_neg (by omega)]⟩

/-- Witness for `dow_aggregate_shape` at concrete inputs. -/
theorem dow_aggregate_shape_witness :
    ("Sunday", 0) ∈ dow_occupancy [⟨"Monday", "f"⟩] ∧
    ("Monday", some 1) ∈ reviews_by_day ["Monday"] :=
  ⟨(dow_aggregate_shape [⟨"Monday", "f"⟩] ["Monday"]).2.2.1 "Sunday" (by decide) (by decide),
   (dow_aggregate_shape [⟨"Monday", "f"⟩] ["Monday"]).2.2.2.2.2.2 "Monday" (by decide)
     (by decide)⟩

/-! ## Quartile price bands (airbnb_host_advisor.py, `show_market_analysis`)

`q25, q50, q75 = price_data.quantile([0.25, 0.5, 0.75])` followed by the four
printed ranges Budget `min-q25`, Competitive `q25-q50`, Premium `q50-q75`,
Luxury `q75-max`.  pandas `Series.quantile` uses linear interpolation over the
ascending order statistics: at fraction `p` the index `h = p * (n - 1)` is
split into `i = floor h` and `g = h - i`, and the result is
`x[i] + g * (x[i+1] - x[i])`.  `Series.min()`/`Series.max()` are the extreme
order statistics. -/

def sortQ (l : List ℚ) : List ℚ := List.insertionSort (fun a b => a ≤ b) l

/-- The `i`-th ascending order statistic (0 past the end). -/
def nthSorted (l : List ℚ) (i : ℕ) : ℚ := (sortQ l).getD i 0

/-- `Series.quantile(p)` with the default linear interpolation. -/
def quantile (l : List ℚ) (p : ℚ) : ℚ :=
  if l.length = 0 then 0
  else
    let h : ℚ := p * ((l.length : ℚ) - 1)
    let i : ℕ := ⌊h⌋₊
    let g : ℚ := h - (i : ℚ)
    nthSorted l i + g * (nthSorted l (i + 1) - nthSorted l i)

/-- `Series.min()`. -/
def seriesMin (l : List ℚ) : ℚ := nthSorted l 0

/-- `Series.max()`. -/
def seriesMax (l : List ℚ) : ℚ := nthSorted l (l.length - 1)

theorem length_sortQ (l : List ℚ) : (sortQ l).length = l.length :=
  List.length_insertionSort _ _

theorem sortQ_sorted (l : List ℚ) : (sortQ l).Sorted (fun a b => a ≤ b) :=
  List.sorted_insertionSort _ l

theorem nthSorted_mono (l : List ℚ) {i j : ℕ} (hij : i ≤ j) (hj : j < l.length) :
    nthSorted l i ≤ nthSorted l j := by
  have hlen := length_sortQ l
  have hi : i < (sortQ l).length := by omega
  have hj' : j < (sortQ l).length := by omega
  unfold nthSorted
  rw [List.getD_eq_getElem _ _ hi, List.getD_eq_getElem _ _ hj']
  have := (sortQ_sorted l).rel_get_of_le
    (show (⟨i, hi⟩ : Fin (sortQ l).length) ≤ ⟨j, hj'⟩ from hij)
  simpa [List.get_eq_getElem] using this

/-- Groundwork facts about the interpolation index and fraction at level
`p ∈ [0, 1]` over a non-empty list. -/
theorem quantile_groundwork (l : List ℚ) {p : ℚ} (h0 : 0 ≤ p) (h1 : p ≤ 1)
    (hl : l ≠ []) :
    ⌊p * ((l.length : ℚ) - 1)⌋₊ < l.length ∧
    0 ≤ p * ((l.length : ℚ) - 1) - (⌊p * ((l.length : ℚ) - 1)⌋₊ : ℚ) ∧
    p * ((l.length : ℚ) - 1) - (⌊p * ((l.length : ℚ) - 1)⌋₊ : ℚ) < 1 ∧
    (⌊p * ((l.length : ℚ) - 1)⌋₊ = l.length - 1 →
      p * ((l.length : ℚ) - 1) - (⌊p * ((l.length : ℚ) - 1)⌋₊ : ℚ) = 0) := by
  set n := l.length with hn
  have hn1 : 1 ≤ n := List.length_pos.mpr hl
  have hcast : ((n - 1 : ℕ) : ℚ) = (n : ℚ) - 1 := by
    push_cast [hn1]
    ring
  set h : ℚ := p * ((n : ℚ) - 1) with hh
  have hnn : (0 : ℚ) ≤ (n : ℚ) - 1 := by
    rw [← hcast]
    positivity
  have hpos : 0 ≤ h := mul_nonneg h0 hnn
  have hub : h ≤ (n : ℚ) - 1 := by
    calc h = p * ((n : ℚ) - 1) := hh
      _ ≤ 1 * ((n : ℚ) - 1) := by nlinarith
      _ = (n : ℚ) - 1 := one_mul _
  have hfl : ⌊h⌋₊ ≤ n - 1 := by
    calc ⌊h⌋₊ ≤ ⌊((n - 1 : ℕ) : ℚ)⌋₊ := Nat.floor_le_floor (by rw [hcast]; exact hub)
      _ = n - 1 := Nat.floor_natCast _
  refine ⟨by omega, ?_, ?_, ?_⟩
  · have := Nat.floor_le hpos
    linarith
  · have := Nat.lt_floor_add_one h
    push_cast at this
    linarith
  · intro hmax
    have h1' : ((⌊h⌋₊ : ℚ)) = (n : ℚ) - 1 := by
      rw [hmax, hcast]
    have := Nat.floor_le hpos
    linarith

theorem quantile_le_quantile (l : List ℚ) (p p' : ℚ) (h0 : 0 ≤ p) (hpp : p ≤ p')
    (h1 : p' ≤ 1) (hl : l ≠ []) : quantile l p ≤ quantile l p' := by
  have h0' : 0 ≤ p' := le_trans h0 hpp
  have h1p : p ≤ 1 := le_trans hpp h1
  obtain ⟨hiltn, hg0, hg1, hgmax⟩ := quantile_groundwork l h0 h1p hl
  obtain ⟨hiltn', hg0', hg1', hgmax'⟩ := quantile_groundwork l h0' h1 hl
  set n := l.length with hn
  have hn0 : n ≠ 0 := by omega
  set h : ℚ := p * ((n : ℚ) - 1) with hhdef
  set h' : ℚ := p' * ((n : ℚ) - 1) with hhdef'
  have hnn : (0 : ℚ) ≤ (n : ℚ) - 1 := by
    have : (1 : ℚ) ≤ (n : ℚ) := by exact_mod_cast Nat.one_le_iff_ne_zero.mpr hn0
    linarith
  have hhh : h ≤ h' := by
    rw [hhdef, hhdef']
    nlinarith
  set i := ⌊h⌋₊ with hidef
  set i' := ⌊h'⌋₊ with hidef'
  have hii : i ≤ i' := Nat.floor_le_floor hhh
  rw [quantile, quantile, if_neg hn0, if_neg hn0]
  simp only [← hn, ← hhdef, ← hhdef', ← hidef, ← hidef']
  rcases Nat.lt_or_ge i i' with hlt | hge
  · -- the two levels fall in different segments
    have hi1 : i + 1 ≤ i' := hlt
    have hi1n : i + 1 < n := by omega
    have hab : nthSorted l i ≤ nthSorted l (i + 1) := nthSorted_mono l (by omega) hi1n
    have hstep : nthSorted l (i + 1) ≤ nthSorted l i' := nthSorted_mono l hi1 hiltn'
    have hup : nthSorted l i + (h - (i : ℚ)) * (nthSorted l (i + 1) - nthSorted l i) ≤
        nthSorted l (i + 1) := by nlinarith
    have hdown : nthSorted l i' ≤
        nthSorted l i' + (h' - (i' : ℚ)) * (nthSorted l (i' + 1) - nthSorted l i') := by
      rcases Nat.lt_or_ge (i' + 1) n with hin | hin
      · have : nthSorted l i' ≤ nthSorted l (i' + 1) := nthSorted_mono l (by omega) hin
        nlinarith
      · have : i' = n - 1 := by omega
        rw [hgmax' this]
        simp
    linarith
  · -- equal segments
    have hieq : i = i' := by omega
    rw [← hieq] at hg0' hg1' hgmax' ⊢
    rcases Nat.lt_or_ge (i + 1) n with hin | hin
    · have hab : nthSorted l i ≤ nthSorted l (i + 1) := nthSorted_mono l (by omega) hin
      have hgg : h - (i : ℚ) ≤ h' - (i : ℚ) := by linarith
      nlinarith
    · have hieq2 : i = n - 1 := by omega
      rw [hgmax hieq2, hgmax' hieq2]

theorem quantile_between (l : List ℚ) (p : ℚ) (h0 : 0 ≤ p) (h1 : p ≤ 1)
    (hl : l ≠ []) : seriesMin l ≤ quantile l p ∧ quantile l p ≤ seriesMax l := by
  obtain ⟨hiltn, hg0, hg1, hgmax⟩ := quantile_groundwork l h0 h1 hl
  set n := l.length with hn
  have hn0 : n ≠ 0 := by omega
  set h : ℚ := p * ((n : ℚ) - 1) with hhdef
  set i := ⌊h⌋₊ with hidef
  rw [quantile, if_neg hn0]
  simp only [← hn, ← hhdef, ← hidef]
  have hmin : seriesMin l ≤ nthSorted l i := nthSorted_mono l (Nat.zero_le i) hiltn
  have hmax : nthSorted l i ≤ seriesMax l := nthSorted_mono l (by omega) (by omega)
  rcases Nat.lt_or_ge (i + 1) n with hin | hin
  · have hab : nthSorted l i ≤ nthSorted l (i + 1) := nthSorted_mono l (by omega) hin
    have hub : nthSorted l (i + 1) ≤ seriesMax l := nthSorted_mono l (by omega) (by omega)
    constructor
    · nlinarith
    · nlinarith
  · have : i = n - 1 := by omega
    rw [hgmax this]
    constructor
    · simpa using hmin
    · simpa using hmax

/-- One printed price range. -/
structure Band where
  lo : ℚ
  hi : ℚ
deriving DecidableEq

/-- The Budget/Competitive/Premium/Luxury ranges of `show_market_analysis`. -/
def priceBands (l : List ℚ) : Band × Band × Band × Band :=
  (⟨seriesMin l, quantile l (1 / 4)⟩,
   ⟨quantile l (1 / 4), quantile l (1 / 2)⟩,
   ⟨quantile l (1 / 2), quantile l (3 / 4)⟩,
   ⟨quantile l (3 / 4), seriesMax l⟩)

/-- **C4.** For a non-empty price column the four quartile bands share their
endpoints (`Budget.hi = Q1 = Competitive.lo`, `Competitive.hi = Q2 =
Premium.lo`, `Premium.hi = Q3 = Luxury.lo`), the outer endpoints are the data
min and max, the band endpoints are ascending, and the bands jointly cover
`[min, max]` with no gaps. -/
theorem price_bands_partition (l : List ℚ) (hl : l ≠ []) :
    (priceBands l).1.hi = quantile l (1 / 4) ∧
    (priceBands l).2.1.lo = quantile l (1 / 4) ∧
    (priceBands l).2.1.hi = quantile l (1 / 2) ∧
    (priceBands l).2.2.1.lo = quantile l (1 / 2) ∧
    (priceBands l).2.2.1.hi = quantile l (3 / 4) ∧
    (priceBands l).2.2.2.lo = quantile l (3 / 4) ∧
    (priceBands l).1.lo = seriesMin l ∧
    (priceBands l).2.2.2.hi = seriesMax l ∧
    seriesMin l ≤ quantile l (1 / 4) ∧
    quantile l (1 / 4) ≤ quantile l (1 / 2) ∧
    quantile l (1 / 2) ≤ quantile l (3 / 4) ∧
    quantile l (3 / 4) ≤ seriesMax l ∧
    (∀ y, seriesMin l ≤ y → y ≤ seriesMax l →
      ((priceBands l).1.lo ≤ y ∧ y ≤ (priceBands l).1.hi) ∨
      ((priceBands l).2.1.lo ≤ y ∧ y ≤ (priceBands l).2.1.hi) ∨
      ((priceBands l).2.2.1.lo ≤ y ∧ y ≤ (priceBands l).2.2.1.hi) ∨
      ((priceBands l).2.2.2.lo ≤ y ∧ y ≤ (priceBands l).2.2.2.hi)) := by
  have hq1 := (quantile_between l (1 / 4) (by norm_num) (by norm_num) hl).1
  have hq4 := (quantile_between l (3 / 4) (by norm_num) (by norm_num) hl).2
  have h12 := quantile_le_quantile l (1 / 4) (1 / 2)
    (by norm_num) (by norm_num) (by norm_num) hl
  have h23 := quantile_le_quantile l (1 / 2) (3 / 4)
    (by norm_num) (by norm_num) (by norm_num) hl
  refine ⟨rfl, rfl, rfl, rfl, rfl, rfl, rfl, rfl, hq1, h12, h23, hq4, ?_⟩
  intro y hymin hymax
  rcases le_total y (quantile l (1 / 4)) with hy1 | hy1
  · exact Or.inl ⟨hymin, hy1⟩
  rcases le_total y (quantile l (1 / 2)) with hy2 | hy2
  · exact Or.inr (Or.inl ⟨hy1, hy2⟩)
  rcases le_total y (quantile l (3 / 4)) with hy3 | hy3
  · exact Or.inr (Or.inr (Or.inl ⟨hy2, hy3⟩))
  · exact Or.inr (Or.inr (Or.inr ⟨hy3, hymax⟩))

/-- Witness for `price_bands_partition` on the concrete price column
`[50, 100, 150, 200]`. -/
theorem price_bands_partition_witness :
    seriesMin [(50 : ℚ), 100, 150, 200] ≤ quantile [(50 : ℚ), 100, 150, 200] (1 / 4) ∧
    quantile [(50 : ℚ), 100, 150, 200] (1 / 4) ≤ quantile [(50 : ℚ), 100, 150, 200] (1 / 2) :=
  ⟨(price_bands_partition [(50 : ℚ), 100, 150, 200] (by simp)).2.2.2.2.2.2.2.2.1,
   (price_bands_partition [(50 : ℚ), 100, 150, 200] (by simp)).2.2.2.2.2.2.2.2.2.1⟩

/-! ## Availability buckets (analysis.py, `analyze_copenhagen_occupancy`
lines 230-236)

`pd.cut(listings_df['availability_365'], bins=[0, 30, 90, 180, 365],
labels=[...])` with the default `right=True` and **without**
`include_lowest`, so the categories are the half-open intervals
`(0, 30], (30, 90], (90, 180], (180, 365]` and any value outside their union
(in particular 0) gets no category (NaN). -/

inductive AvailBucket where
  | veryLow
  | low
  | medium
  | high
deriving DecidableEq

/-- Category assigned to one `availability_365` value by the `pd.cut` call. -/
def availCut (v : ℤ) : Option AvailBucket :=
  if 0 < v ∧ v ≤ 30 then some .veryLow
  else if 30 < v ∧ v ≤ 90 then some .low
  else if 90 < v ∧ v ≤ 180 then some .medium
  else if 180 < v ∧ v ≤ 365 then some .high
  else none

/-- `value_counts()` total over the four buckets: NaN categories are not
counted. -/
def availBucketTotal (vs : List ℤ) : ℕ :=
  (vs.filterMap availCut).length

/-- **C5.** Evaluation at the failing input: the value 0 receives no bucket,
so the bucket counts do not include it; a value list `[0, 10]` has two
non-missing entries but a bucket total of only 1.  (Every value in `(0, 365]`
does fall in exactly one bucket.) -/
theorem avail_bucket_zero_dropped :
    availCut 0 = none ∧
    availBucketTotal [0, 10] = 1 ∧
    (∀ v : ℤ, 0 < v → v ≤ 365 → (availCut v).isSome) ∧
    (∀ v : ℤ, availCut v = none ∨ ∃ b, availCut v = some b ∧
      ∀ b', availCut v = some b' → b' = b) := by
  refine ⟨by decide, by decide, ?_, ?_⟩
  · intro v h0 h365
    unfold availCut
    rcases lt_or_le 30 v with h30 | h30
    · rcases lt_or_le 90 v with h90 | h90
      · rcases lt_or_le 180 v with h180 | h180
        · rw [if_neg (by omega), if_neg (by omega), if_neg (by omega), if_pos (by omega)]
          rfl
        · rw [if_neg (by omega), if_neg (by omega), if_pos (by omega)]
          rfl
      · rw [if_neg (by omega), if_pos (by omega)]
        rfl
    · rw [if_pos (by omega)]
      rfl
  · intro v
    rcases hv : availCut v with _ | b
    · exact Or.inl rfl
    · exact Or.inr ⟨b, rfl, fun b' hb' => (Option.some_inj.mp hb').symm⟩

/-- Witness for `avail_bucket_zero_dropped`: the universally quantified part
applied at the concrete in-range value 50. -/
theorem avail_bucket_zero_dropped_witness :
    (availCut 50).isSome :=
  avail_bucket_zero_dropped.2.2.1 50 (by decide) (by decide)

/-! ## Review-count bins (analysis.py, `analyze_enhanced_review_patterns`
lines 436-454)

For `number_of_reviews`: `pd.cut(feature_data,
bins=[0, 1, 5, 10, 25, 50, 100, inf], labels=['0','1-5','6-10','11-25',
'26-50','51-100','100+'], include_lowest=True)`, i.e. the categories are
`[0, 1], (1, 5], (5, 10], (10, 25], (25, 50], (50, 100], (100, inf)`. -/

inductive ReviewBin where
  | b0
  | b1to5
  | b6to10
  | b11to25
  | b26to50
  | b51to100
  | b100plus
deriving DecidableEq

/-- Category assigned to one `number_of_reviews` value by the `pd.cut` call
(`include_lowest=True` closes the first interval on the left). -/
def reviewCut (v : ℤ) : Option ReviewBin :=
  if 0 ≤ v ∧ v ≤ 1 then some .b0
  else if 1 < v ∧ v ≤ 5 then some .b1to5
  else if 5 < v ∧ v ≤ 10 then some .b6to10
  else if 10 < v ∧ v ≤ 25 then some .b11to25
  else if 25 < v ∧ v ≤ 50 then some .b26to50
  else if 50 < v ∧ v ≤ 100 then some .b51to100
  else if 100 < v then some .b100plus
  else none

/-- **C8.** Evaluation at the failing input: a listing with exactly 1 review
is placed in the bin labelled `'0'`, not in the `'1-5'` bin, because
`include_lowest=True` with right-closed edges makes the first category
`[0, 1]`.  The bin labelled `'0'` therefore holds the values 0 and 1. -/
theorem review_bin_one_in_zero_bin :
    reviewCut 1 = some .b0 ∧
    reviewCut 1 ≠ some .b1to5 ∧
    reviewCut 0 = some .b0 ∧
    reviewCut 2 = some .b1to5 ∧
    reviewCut 5 = some .b1to5 ∧
    reviewCut 100 = some .b51to100 ∧
    reviewCut 101 = some .b100plus := by
  refine ⟨by decide, by decide, by decide, by decide, by decide, by decide, by decide⟩

/-! ## Amenity price-impact analysis (airbnb_host_advisor.py,
`show_amenity_analysis` lines 680-703)

For each keyword in the fixed list, rows are split by a case-insensitive
substring match against the free-text amenities field (`na=False` treats a
missing field as no match); a comparison row is appended only when
`has_amenity.sum() > 0` and both price partitions are non-empty after
`dropna()`. -/

/-- Substring test on character lists. -/
def containsSub (hay pat : List Char) : Bool :=
  match hay with
  | [] => pat.isEmpty
  | _ :: t => pat.isPrefixOf hay || containsSub t pat

/-- ASCII lower-casing, as applied by the case-insensitive match to the ASCII
amenity keywords. -/
def charLower (c : Char) : Char :=
  if 'A' ≤ c ∧ c ≤ 'Z' then Char.ofNat (c.toNat + 32) else c

/-- `Series.str.contains(amenity, case=False)` on one cell. -/
def strContainsCI (hay needle : String) : Bool :=
  containsSub (hay.toList.map charLower) (needle.toList.map charLower)

/-- One listing row as consumed by the amenity analysis: the free-text
amenities field (`none` = NaN) and the cleaned nightly price (`none` = NaN). -/
structure AmenityRow where
  amenities : Option String
  price : Option ℚ

/-- `listings_df[amenities_col].str.contains(amenity, case=False, na=False)`. -/
def hasAmenity (r : AmenityRow) (amenity : String) : Bool :=
  match r.amenities with
  | some s => strContainsCI s amenity
  | none => false

/-- `listings_df[has_amenity][price_col].dropna()`. -/
def withAmenity (ls : List AmenityRow) (amenity : String) : List ℚ :=
  (ls.filter (fun r => hasAmenity r amenity)).filterMap (fun r => r.price)

/-- `listings_df[~has_amenity][price_col].dropna()`. -/
def withoutAmenity (ls : List AmenityRow) (amenity : String) : List ℚ :=
  (ls.filter (fun r => !hasAmenity r amenity)).filterMap (fun r => r.price)

/-- `Series.mean()` of a non-empty series. -/
def meanQ (l : List ℚ) : ℚ := l.sum / (l.length : ℚ)

/-- One appended comparison row. -/
structure AmenityImpact where
  amenity : String
  withMean : ℚ
  withoutMean : ℚ
  priceDiff : ℚ
  priceDiffPct : ℚ
  listingsWith : ℕ

/-- The body of the `for amenity in key_amenities` loop: `some` iff a row is
appended for this keyword. -/
def amenityImpactRow (ls : List AmenityRow) (amenity : String) : Option AmenityImpact :=
  if 0 < (ls.filter (fun r => hasAmenity r amenity)).length then
    let w := withAmenity ls amenity
    let wo := withoutAmenity ls amenity
    if 0 < w.length ∧ 0 < wo.length then
      some ⟨amenity, meanQ w, meanQ wo, meanQ w - meanQ wo,
        (meanQ w - meanQ wo) / meanQ wo * 100, w.length⟩
    else none
  else none

def keyAmenities : List String :=
  ["WiFi", "Kitchen", "Air Conditioning", "Pool", "Gym", "Parking", "Balcony"]

/-- The `amenity_analysis` list built by the loop. -/
def amenity_analysis (ls : List AmenityRow) : List AmenityImpact :=
  keyAmenities.filterMap (amenityImpactRow ls)

theorem withAmenity_length_le (ls : List AmenityRow) (amenity : String) :
    (withAmenity ls amenity).length ≤
      (ls.filter (fun r => hasAmenity r amenity)).length :=
  List.length_filterMap_le _ _

/-- **C6.** A comparison row for a keyword is emitted iff both the "has" and
"has-not" price partitions are non-empty after dropping missing prices, and
every emitted row records a strictly positive "has" partition size. -/
theorem amenity_analysis_guard (ls : List AmenityRow) (amenity : String) :
    ((amenityImpactRow ls amenity).isSome ↔
      withAmenity ls amenity ≠ [] ∧ withoutAmenity ls amenity ≠ []) ∧
    (amenity ∈ keyAmenities →
      ((∃ r ∈ amenity_analysis ls, r.amenity = amenity) ↔
        withAmenity ls amenity ≠ [] ∧ withoutAmenity ls amenity ≠ [])) ∧
    (∀ r ∈ amenity_analysis ls, 0 < r.listingsWith) := by
  have hname : ∀ a r, amenityImpactRow ls a = some r → r.amenity = a := by
    intro a r h
    simp only [amenityImpactRow] at h
    split_ifs at h
    · cases Option.some_inj.mp h
      rfl
  have hposW : ∀ a r, amenityImpactRow ls a = some r → 0 < r.listingsWith := by
    intro a r h
    simp only [amenityImpactRow] at h
    split_ifs at h with h1 h2
    · cases Option.some_inj.mp h
      exact h2.1
  have hiff : ∀ a, (amenityImpactRow ls a).isSome ↔
      withAmenity ls a ≠ [] ∧ withoutAmenity ls a ≠ [] := by
    intro a
    simp only [amenityImpactRow]
    by_cases hout : 0 < (ls.filter (fun r => hasAmenity r a)).length
    · rw [if_pos hout]
      by_cases hin : 0 < (withAmenity ls a).length ∧ 0 < (withoutAmenity ls a).length
      · rw [if_pos hin]
        simp only [Option.isSome_some, true_iff]
        exact ⟨List.length_pos.mp hin.1, List.length_pos.mp hin.2⟩
      · rw [if_neg hin]
        simp only [Option.isSome_none, Bool.false_eq_true, false_iff]
        intro h
        exact hin ⟨List.length_pos.mpr h.1, List.length_pos.mpr h.2⟩
    · rw [if_neg hout]
      simp only [Option.isSome_none, Bool.false_eq_true, false_iff]
      intro h
      exact hout (lt_of_lt_of_le (List.length_pos.mpr h.1) (withAmenity_length_le ls a))
  refine ⟨hiff amenity, ?_, ?_⟩
  · intro hmem
    constructor
    · rintro ⟨r, hr, hra⟩
      obtain ⟨a, _, heq⟩ := List.mem_filterMap.mp hr
      have : a = amenity := by rw [← hra, hname a r heq]
      subst this
      exact (hiff a).mp (by rw [heq]; rfl)
    · intro h
      obtain ⟨r, heq⟩ := Option.isSome_iff_exists.mp ((hiff amenity).mpr h)
      exact ⟨r, List.mem_filterMap.mpr ⟨amenity, hmem, heq⟩, hname amenity r heq⟩
  · intro r hr
    obtain ⟨a, _, heq⟩ := List.mem_filterMap.mp hr
    exact hposW a r heq

/-- Concrete listings: one row has WiFi with a price, one does not. -/
def amenityWitnessRows : List AmenityRow :=
  [⟨some "WiFi, Kitchen", some 100⟩, ⟨some "Kitchen", some 80⟩]

/-- Witness for `amenity_analysis_guard`: on the concrete two-row listings
table a WiFi comparison row is emitted. -/
theorem amenity_analysis_guard_witness :
    ∃ r ∈ amenity_analysis amenityWitnessRows, r.amenity = "WiFi" :=
  ((amenity_analysis_guard amenityWitnessRows "WiFi").2.1 (by decide)).mpr
    ⟨by decide, by decide⟩

/-! ## Missing-input behaviour of `analyze_occupancy`, `analyze_revenue`,
`analyze_pricing` (analysis.py lines 14-86)

`analyze_occupancy(df, date_cols)` returns `None` when `date_cols` is empty;
`analyze_revenue(df, price_cols)` returns `None` when `price_cols` is empty
but then reads `df[price_col]` and `df['date']` unconditionally;
`analyze_pricing(df, price_cols, date_cols)` returns `None` when either hint
list is empty.  Reading an absent column of a DataFrame raises `KeyError`,
modelled as `Except.error "KeyError"`. -/

/-- Non-NaN numeric values of a column (pandas `sum`/`mean` skip NaN). -/
def numsOf (vs : List PyVal) : List ℚ :=
  vs.filterMap (fun v => match v with | .num q => some q | _ => none)

structure OccAnalysis where
  total_bookings : ℕ
deriving DecidableEq

structure RevenueResult where
  total_revenue : ℚ
  avg_revenue_per_booking : ℚ
deriving DecidableEq

structure PricingResult where
  avg_price : ℚ
  median_price : ℚ
deriving DecidableEq

/-- `analyze_occupancy` (lines 14-46): `None` without date columns, otherwise
reads the first date column (`total_bookings = len(df)` summarises the rest
of the returned aggregates). -/
def analyze_occupancy (df : Frame) (date_cols : List String) :
    Except String (Option OccAnalysis) :=
  if date_cols.isEmpty then .ok none
  else
    match getCol? df (date_cols.headD "") with
    | none => .error "KeyError"
    | some dvs => .ok (some ⟨dvs.length⟩)

/-- `analyze_revenue` (lines 48-66): `None` without price columns, otherwise
sum/mean of the first price column and a monthly grouping that reads
`df['date']` unconditionally. -/
def analyze_revenue (df : Frame) (price_cols : List String) :
    Except String (Option RevenueResult) :=
  if price_cols.isEmpty then .ok none
  else
    match getCol? df (price_cols.headD "") with
    | none => .error "KeyError"
    | some pvs =>
      match getCol? df "date" with
      | none => .error "KeyError"
      | some _ => .ok (some ⟨(numsOf pvs).sum, meanQ (numsOf pvs)⟩)

/-- `analyze_pricing` (lines 68-86): `None` when either hint list is empty,
otherwise mean/median of the first price column and a monthly trend that
reads `df['date']` unconditionally. -/
def analyze_pricing (df : Frame) (price_cols date_cols : List String) :
    Except String (Option PricingResult) :=
  if price_cols.isEmpty || date_cols.isEmpty then .ok none
  else
    match getCol? df (price_cols.headD "") with
    | none => .error "KeyError"
    | some pvs =>
      match getCol? df "date" with
      | none => .error "KeyError"
      | some _ => .ok (some ⟨meanQ (numsOf pvs), quantile (numsOf pvs) (1 / 2)⟩)

/-- **C7 counterexample.** The revenue analysis applied to a dataset with a
price column but no date column raises `KeyError` on `df['date']` rather than
returning the absence sentinel. -/
theorem analyze_revenue_raises_without_date :
    analyze_revenue ⟨[("price", [PyVal.num 100])]⟩ ["price"] = .error "KeyError" := by
  rfl

/-- **C7 (amended).** Each analysis function returns the absence sentinel
(`None`) when a *declared* optional input is missing: no date columns for the
occupancy analysis, no price columns for the revenue analysis, either list
empty for the pricing analysis.  But the revenue analysis assumes a `date`
column created by a prior occupancy call: on a frame that has its price
column but no `date` column, it raises `KeyError` instead of returning the
sentinel. -/
theorem analysis_missing_input_guards (df : Frame) (date_cols price_cols : List String) :
    (date_cols = [] → analyze_occupancy df date_cols = .ok none) ∧
    (price_cols = [] → analyze_revenue df price_cols = .ok none) ∧
    (price_cols = [] ∨ date_cols = [] →
      analyze_pricing df price_cols date_cols = .ok none) ∧
    (price_cols ≠ [] → (getCol? df (price_cols.headD "")).isSome →
      getCol? df "date" = none →
      analyze_revenue df price_cols = .error "KeyError") := by
  refine ⟨?_, ?_, ?_, ?_⟩
  · intro h
    rw [analyze_occupancy, if_pos (by simp [h])]
  · intro h
    rw [analyze_revenue, if_pos (by simp [h])]
  · intro h
    rcases h with h | h
    · rw [analyze_pricing, if_pos (by simp [h])]
    · rw [analyze_pricing, if_pos (by simp [h])]
  · intro hne hcol hdate
    rw [analyze_revenue, if_neg (by simpa using hne)]
    obtain ⟨pvs, hpvs⟩ := Option.isSome_iff_exists.mp hcol
    rw [hpvs, hdate]

/-- Witness for `analysis_missing_input_guards` on concrete frames. -/
theorem analysis_missing_input_guards_witness :
    analyze_occupancy ⟨[]⟩ [] = .ok none ∧
    analyze_revenue ⟨[("price", [PyVal.num 100])]⟩ ["price"] = .error "KeyError" :=
  ⟨(analysis_missing_input_guards ⟨[]⟩ [] []).1 rfl,
   (analysis_missing_input_guards ⟨[("price", [PyVal.num 100])]⟩ [] ["price"]).2.2.2
     (by simp) rfl rfl⟩

/-! ## Calendar event projection (analysis.py, `create_calendar_events`
lines 296-366)

The function filters by `listing_id` **with `.copy()`**, truncates with
`.head(max_events)` (which yields a new frame), converts the `date` column
(the loader already delivers datetimes, so this conversion is the identity
here and the dates are kept structured as year/month/day), and then writes a
`price_clean` column.  When neither the filter nor the truncation ran, that
write lands on the caller's own table.  `pd.to_numeric(....str.replace(...),
errors='coerce')` behaves per-cell like `clean_price` on strings and yields
NaN on every non-string cell. -/

structure CalRowE where
  listing_id : ℤ
  dateY : ℤ
  dateM : ℤ
  dateD : ℤ
  available : String
  price : PyVal
  price_clean : PyVal
deriving DecidableEq

/-- A calendar DataFrame: which of the price columns exist, plus the rows
(whose `price`/`price_clean` fields are meaningful only when the
corresponding flag is set). -/
structure CalendarTable where
  hasPriceCol : Bool
  hasPriceCleanCol : Bool
  rows : List CalRowE
deriving DecidableEq

/-- One cell of the vectorized price-cleaning pass. -/
def cleanOne (v : PyVal) : PyVal :=
  match v with
  | .str s =>
    match pyFloat? (stripCurrency s) with
    | some q => .num q
    | none => .nan
  | _ => .nan

def cleanRow (r : CalRowE) : CalRowE :=
  { r with price_clean := cleanOne r.price }

structure CEvent where
  startY : ℤ
  startM : ℤ
  startD : ℤ
  color : String
  availableFlag : Bool
  priceProp : Option PyVal
deriving DecidableEq

/-- One loop iteration: green/available vs red/booked, with
`row.get('price_clean', row.get('price', None))` as the property bag price. -/
def mkEvent (t : CalendarTable) (r : CalRowE) : CEvent :=
  let priceDisp : Option PyVal :=
    if t.hasPriceCleanCol then some r.price_clean
    else if t.hasPriceCol then some r.price
    else none
  if r.available == "t" then
    ⟨r.dateY, r.dateM, r.dateD, "#28a745", true, priceDisp⟩
  else
    ⟨r.dateY, r.dateM, r.dateD, "#dc3545", false, priceDisp⟩

/-- `create_calendar_events(calendar_df, listing_id, max_events)`, returning
the produced events *and* the state of the caller's table after the call
(the Python function mutates `calendar_df` in place unless the filter or the
truncation rebound the local name to a fresh frame first). -/
def create_calendar_events (t : CalendarTable) (lid : Option ℤ) (max_events : ℕ) :
    List CEvent × CalendarTable :=
  if t.rows.isEmpty then ([], t)
  else
    let fil : Bool × CalendarTable :=
      match lid with
      | some i => (true, ⟨t.hasPriceCol, t.hasPriceCleanCol,
          t.rows.filter (fun r => r.listing_id == i)⟩)
      | none => (false, t)
    let tru : Bool × CalendarTable :=
      if max_events < fil.2.rows.length then
        (true, ⟨fil.2.hasPriceCol, fil.2.hasPriceCleanCol, fil.2.rows.take max_events⟩)
      else fil
    let cleaned : CalendarTable :=
      if tru.2.hasPriceCol then
        ⟨tru.2.hasPriceCol, true, tru.2.rows.map cleanRow⟩
      else tru.2
    let events := (cleaned.rows.take max_events).map (mkEvent cleaned)
    (events, if tru.1 then t else cleaned)

/-- Concrete one-row calendar table with a price column. -/
def c9table : CalendarTable :=
  ⟨true, false, [⟨1, 2025, 1, 1, "t", PyVal.str "$50.00", PyVal.nan⟩]⟩

/-- **C9 counterexample.** Called without a listing filter on a small table,
the projection does *not* leave the caller's table unchanged: the
price-cleaning pass lands on the caller's frame, which acquires the
`price_clean` column. -/
theorem create_calendar_events_mutates :
    ((create_calendar_events c9table none 1000).2).hasPriceCleanCol = true ∧
    c9table.hasPriceCleanCol = false ∧
    (create_calendar_events c9table none 1000).2 ≠ c9table := by
  refine ⟨rfl, rfl, ?_⟩
  intro h
  have h2 := congrArg CalendarTable.hasPriceCleanCol h
  rw [show ((create_calendar_events c9table none 1000).2).hasPriceCleanCol = true from rfl]
    at h2
  rw [show c9table.hasPriceCleanCol = false from rfl] at h2
  exact Bool.noConfusion h2

/-- **C9 (amended).** The projection leaves the caller's table unchanged when
a listing filter is supplied or when the table exceeds the event cap (both
paths rebind the local name to a fresh frame); otherwise, on a non-empty
table with a price column, the date conversion and price-cleaning pass run on
the caller's table itself, which ends up with the `price_clean` column
appended (and is unchanged only when no price column exists). -/
theorem create_calendar_events_frame (t : CalendarTable) (lid : Option ℤ) (m : ℕ) :
    (lid.isSome → (create_calendar_events t lid m).2 = t) ∧
    (m < t.rows.length → (create_calendar_events t lid m).2 = t) ∧
    (lid = none → t.rows ≠ [] → t.rows.length ≤ m → t.hasPriceCol = true →
      (create_calendar_events t lid m).2 =
        ⟨t.hasPriceCol, true, t.rows.map cleanRow⟩) ∧
    (lid = none → t.rows.length ≤ m → t.hasPriceCol = false →
      (create_calendar_events t lid m).2 = t) := by
  by_cases hemp : t.rows.isEmpty
  · have he : t.rows = [] := List.isEmpty_iff.mp hemp
    have hres : (create_calendar_events t lid m).2 = t := by
      rw [create_calendar_events.eq_def, if_pos hemp]
    exact ⟨fun _ => hres, fun _ => hres, fun _ hne _ _ => absurd he hne, fun _ _ _ => hres⟩
  · refine ⟨?_, ?_, ?_, ?_⟩
    · intro hsome
      obtain ⟨i, hi⟩ := Option.isSome_iff_exists.mp hsome
      subst hi
      rw [create_calendar_events.eq_def, if_neg hemp]
      simp only []
      split
      · rfl
      · rfl
    · intro hlen
      rw [create_calendar_events.eq_def, if_neg hemp]
      rcases lid with _ | i
      · simp only [if_pos hlen]
        simp
      · simp only []
        split
        · rfl
        · rfl
    · intro hnone hne hlen hp
      subst hnone
      rw [create_calendar_events.eq_def, if_neg hemp]
      simp [hp, show ¬ m < t.rows.length from by omega]
    · intro hnone hlen hp
      subst hnone
      rw [create_calendar_events.eq_def, if_neg hemp]
      simp [hp, show ¬ m < t.rows.length from by omega]

/-- Witness for `create_calendar_events_frame`: a supplied listing filter
leaves the concrete caller table untouched. -/
theorem create_calendar_events_frame_witness :
    (create_calendar_events c9table (some 1) 1000).2 = c9table :=
  (create_calendar_events_frame c9table (some 1) 1000).1 rfl

end AirBnb
